import Mathlib

/-!
Shallow embedding of `src/tools/render_crash_zone_assets.py`.

The Python tool converts ASCII-art grids plus a symbol legend into RGBA
rasters and exports them (or lists the intended paths in dry-run mode).
Python floats for opacities are modelled as rationals, Python ints as `Int`
(and `Nat` for indices), Python strings as `String` / `List Char`, and the
filesystem plus stdout side effects of the exporter as an explicit event
trace.  Fallible Python code (raising `ValueError`, `KeyError`, `TypeError`)
is modelled with `Except RenderError`.
-/

instance {ε α : Type _} [DecidableEq ε] [DecidableEq α] : DecidableEq (Except ε α) := fun x y =>
  match x, y with
  | .ok a, .ok b => if h : a = b then .isTrue (by rw [h]) else .isFalse (by simp [h])
  | .error a, .error b => if h : a = b then .isTrue (by rw [h]) else .isFalse (by simp [h])
  | .ok _, .error _ => .isFalse (by simp)
  | .error _, .ok _ => .isFalse (by simp)

namespace RenderCrashZone

/-- An RGBA pixel `(r, g, b, a)`; channels are integers (Python ints). -/
abbrev Pixel := Int × Int × Int × Int

/-- The constant `TRANSPARENT_PIXEL = (0, 0, 0, 0)` (line 102 of the source). -/
def TRANSPARENT_PIXEL : Pixel := (0, 0, 0, 0)

/-- The exceptions the Python pipeline can raise:
* `badColour v` — the `ValueError(f"Unsupported colour value: {v!r}")` raised
  by `hex_to_rgb` when the `#`-stripped colour string does not have length 6;
* `invalidIntLiteral p` — the `ValueError` raised by `int(p, 16)` when a
  two-character slice is not a valid base-16 literal;
* `unknownSymbol s slug known` — the `KeyError` raised by `render_asset_grid`
  naming the offending symbol, the asset slug and the sorted known symbols;
* `emptyGrid` — the `TypeError` raised by `max(len(grid), *(...))` when the
  grid is empty, so `max` receives a single non-iterable int argument. -/
inductive RenderError
  | badColour (value : String)
  | invalidIntLiteral (pair : List Char)
  | unknownSymbol (symbol : Char) (slug : String) (known : List Char)
  | emptyGrid
  deriving DecidableEq

/-- The six ASCII whitespace characters Python's `int` strips. -/
def pyIsSpace (c : Char) : Bool :=
  c = ' ' ∨ c = '\t' ∨ c = '\n' ∨ c = '\r' ∨ c = '\x0b' ∨ c = '\x0c'

/-- Value of a single hexadecimal digit (ASCII), as accepted by
Python's `int(·, 16)`. -/
def pyHexDigitVal (c : Char) : Option Int :=
  if '0' ≤ c ∧ c ≤ '9' then some ((c.toNat : Int) - 48)
  else if 'a' ≤ c ∧ c ≤ 'f' then some ((c.toNat : Int) - 87)
  else if 'A' ≤ c ∧ c ≤ 'F' then some ((c.toNat : Int) - 55)
  else none

/-- Python's `int(s, 16)` restricted to two-character ASCII strings, the only
shape `hex_to_rgb` feeds it (`colour[i : i + 2]` with `len(colour) == 6`):
surrounding whitespace is stripped, a single sign may lead, underscores may
only sit between digits (so in a two-character string they never parse), and
the remainder must be hexadecimal digits. -/
def pyIntHex2 (c1 c2 : Char) : Option Int :=
  if pyIsSpace c1 ∧ pyIsSpace c2 then none
  else if pyIsSpace c1 then pyHexDigitVal c2
  else if pyIsSpace c2 then pyHexDigitVal c1
  else if c1 = '+' then pyHexDigitVal c2
  else if c1 = '-' then (pyHexDigitVal c2).map (fun v => -v)
  else
    match pyHexDigitVal c1, pyHexDigitVal c2 with
    | some v1, some v2 => some (16 * v1 + v2)
    | _, _ => none

/-- Python's `int(·)` on a rational: truncation toward zero, which for
`q = num / den` with `den > 0` is T-division of the numerator by the
denominator. -/
def pyInt (q : ℚ) : Int := q.num.tdiv (q.den : Int)

/-- Python's two-argument `max` on integers. -/
def pyMax (a b : Int) : Int := if b ≤ a then a else b

/-- Python's two-argument `min` on integers. -/
def pyMin (a b : Int) : Int := if a ≤ b then a else b

/-- Embedding of `hex_to_rgb` (source lines 141–145): strip every leading `#`
(`str.lstrip("#")` removes *all* leading occurrences), demand exactly six
remaining characters, then parse the three two-character slices in base 16. -/
def hex_to_rgb (hex_colour : String) : Except RenderError (Int × Int × Int) :=
  let colour := hex_colour.data.dropWhile (fun c => c = '#')
  if colour.length = 6 then
    let p1 := [colour.getD 0 ' ', colour.getD 1 ' ']
    let p2 := [colour.getD 2 ' ', colour.getD 3 ' ']
    let p3 := [colour.getD 4 ' ', colour.getD 5 ' ']
    match pyIntHex2 (colour.getD 0 ' ') (colour.getD 1 ' ') with
    | none => .error (.invalidIntLiteral p1)
    | some r =>
      match pyIntHex2 (colour.getD 2 ' ') (colour.getD 3 ' ') with
      | none => .error (.invalidIntLiteral p2)
      | some g =>
        match pyIntHex2 (colour.getD 4 ' ') (colour.getD 5 ' ') with
        | none => .error (.invalidIntLiteral p3)
        | some b => .ok (r, g, b)
  else .error (.badColour hex_colour)

/-- Embedding of `to_rgba` (source lines 148–154): a `None` colour or non-positive opacity
yields the transparent sentinel; otherwise parse the colour and compute
`alpha = int(opacity * 255 + 0.5)` clamped to `[0, 255]`. -/
def to_rgba (hex_colour : Option String) (opacity : ℚ) : Except RenderError Pixel :=
  match hex_colour with
  | none => .ok TRANSPARENT_PIXEL
  | some colour =>
    if opacity ≤ 0 then .ok TRANSPARENT_PIXEL
    else
      match hex_to_rgb colour with
      | .error e => .error e
      | .ok (r, g, b) =>
        let alpha := pyInt (opacity * 255 + 1/2)
        let alpha := pyMax 0 (pyMin alpha 255)
        .ok (r, g, b, alpha)

/-- A legend maps single-character symbols to `(optional colour, opacity)`;
modelled as an insertion-ordered association list (a Python `Mapping` has
unique keys, which theorems assume where it matters). -/
abbrev Legend := List (Char × (Option String × ℚ))

/-- Embedding of `normalise_legend` (source lines 157–158): resolve every legend entry,
in insertion order, propagating the first colour error. -/
def normalise_legend : Legend → Except RenderError (List (Char × Pixel))
  | [] => .ok []
  | (symbol, (hex_colour, opacity)) :: rest =>
    match to_rgba hex_colour opacity with
    | .error e => .error e
    | .ok pixel =>
      match normalise_legend rest with
      | .error e => .error e
      | .ok tail => .ok ((symbol, pixel) :: tail)

/-- The spec's stated malformed-colour condition: after stripping one
optional leading `#`, the string consists of exactly six hexadecimal
digits.  (Stated from the spec's words, for comparison with the code's
`lstrip("#")`, which strips every leading `#`.) -/
def specSixHexAfterOptionalHash (s : String) : Bool :=
  let t := if s.data.headD ' ' = '#' then s.data.tail else s.data
  t.length = 6 && t.all fun c => (pyHexDigitVal c).isSome

/-! ## Grid rasterizer -/

/-- Embedding of `AssetDefinition` (source lines 18–24): slug, ASCII grid (each row a
string, modelled as its character list) and legend. -/
structure AssetDefinition where
  slug : String
  grid : List (List Char)
  legend : Legend

/-- A canvas is a row-major raster: `canvas[y][x]` is the pixel at
`(x, y)`.  `Image.new` produces a `side × side` fully transparent one. -/
abbrev Canvas := List (List Pixel)

/-- Read pixel `(x, y)`; out-of-range reads default to the transparent
sentinel (never exercised by the code, which stays in bounds). -/
def get2d (canvas : Canvas) (x y : Nat) : Pixel :=
  (canvas.getD y []).getD x TRANSPARENT_PIXEL

/-- Embedding of `Image.putpixel((x, y), p)`.  The code only ever writes in bounds (the
canvas side is at least every `offset + index`), so modelling the write as a
bounds-respecting list update is exact on all reachable states. -/
def set2d (canvas : Canvas) (x y : Nat) (p : Pixel) : Canvas :=
  canvas.set y ((canvas.getD y []).set x p)

/-- The sorted list of known symbols, as interpolated into the `KeyError`
message by `", ".join(sorted(legend))`. -/
def sortedSymbols (legend : List (Char × Pixel)) : List Char :=
  List.insertionSort (fun a b => a ≤ b) (legend.map Prod.fst)

/-- The inner loop of `render_asset_grid` (source lines 169–182): walk one
row, look every symbol up in the normalised legend (raising the `KeyError`
of lines 172–177 when absent), skip transparent pixels, and paint the rest
at `(horizontal_offset + column_index, vertical_offset + row_index)`. -/
def paintRow (legend : List (Char × Pixel)) (slug : String)
    (hOff vOff rowIdx : Nat) :
    Nat → List Char → Canvas → Except RenderError Canvas
  | _, [], canvas => .ok canvas
  | colIdx, symbol :: rest, canvas =>
    match legend.lookup symbol with
    | none => .error (.unknownSymbol symbol slug (sortedSymbols legend))
    | some pixel =>
      if pixel = TRANSPARENT_PIXEL then
        paintRow legend slug hOff vOff rowIdx (colIdx + 1) rest canvas
      else
        paintRow legend slug hOff vOff rowIdx (colIdx + 1) rest
          (set2d canvas (hOff + colIdx) (vOff + rowIdx) pixel)

/-- The outer loop of `render_asset_grid` (source lines 167–182): each row
gets its own horizontal offset `(side - len(row)) // 2`. -/
def paintRows (legend : List (Char × Pixel)) (slug : String)
    (side vOff : Nat) :
    Nat → List (List Char) → Canvas → Except RenderError Canvas
  | _, [], canvas => .ok canvas
  | rowIdx, row :: rest, canvas =>
    match paintRow legend slug ((side - row.length) / 2) vOff rowIdx 0 row canvas with
    | .error e => .error e
    | .ok canvas' => paintRows legend slug side vOff (rowIdx + 1) rest canvas'

/-- Maximum row length, `max(...)` over the lengths. -/
def maxRowLen (grid : List (List Char)) : Nat :=
  (grid.map List.length).foldl max 0

/-- Embedding of `render_asset_grid` (source lines 161–183).  The legend is normalised
first; then `max(len(grid), *(len(row) for row in grid))` — which raises a
`TypeError` when the grid is empty, because `max` then receives a single
non-iterable `int` — fixes the square canvas side; the grid is painted onto
an initially transparent canvas with floor-division centering offsets. -/
def render_asset_grid (asset : AssetDefinition) : Except RenderError Canvas :=
  match normalise_legend asset.legend with
  | .error e => .error e
  | .ok legend =>
    match asset.grid with
    | [] => .error .emptyGrid
    | _ =>
      let base_dimension := max asset.grid.length (maxRowLen asset.grid)
      let canvas : Canvas :=
        List.replicate base_dimension (List.replicate base_dimension TRANSPARENT_PIXEL)
      let vertical_offset := (base_dimension - asset.grid.length) / 2
      paintRows legend asset.slug base_dimension vertical_offset 0 asset.grid canvas

/-- Decidable test for the set of canvas positions that the centered grid
paints with a non-transparent resolved pixel. -/
def paintedAt (grid : List (List Char)) (legend : List (Char × Pixel))
    (side vOff x y : Nat) : Bool :=
  (List.range grid.length).any fun i =>
    let row := grid.getD i []
    (List.range row.length).any fun j =>
      y = vOff + i && x = (side - row.length) / 2 + j &&
        match legend.lookup (row.getD j ' ') with
        | some p => p ≠ TRANSPARENT_PIXEL
        | none => false

/-- A small concrete asset: a ragged two-row grid over an opaque red `A`
and a transparent `B`. -/
def wAsset : AssetDefinition :=
  ⟨"w", [['A', 'B'], ['A']], [('A', (some "#FF0000", 1)), ('B', (none, 0))]⟩

/-- The normalised legend of `wAsset`. -/
def wNl : List (Char × Pixel) := [('A', (255, 0, 0, 255)), ('B', (0, 0, 0, 0))]

/-- The canvas `wAsset` rasterizes to: a 2×2 raster with the left column
red and the right column transparent. -/
def wCanvas : Canvas :=
  [[(255, 0, 0, 255), (0, 0, 0, 0)], [(255, 0, 0, 255), (0, 0, 0, 0)]]

/-- A concrete asset whose grid uses the symbol `X` missing from its
legend. -/
def uAsset : AssetDefinition :=
  ⟨"u", [['A', 'X']], [('A', (some "#FF0000", 1))]⟩

/-- The normalised legend of `uAsset`. -/
def uNl : List (Char × Pixel) := [('A', (255, 0, 0, 255))]

/-! ## Scaler / exporter and driver -/

/-- The observable effects of `export_asset` and `main`:
* `mkdirParents d` — `output_dir.mkdir(parents=True, exist_ok=True)`;
* `dryRunLine p` — the stdout line `[dry-run] {p}` (no filesystem effect);
* `saved p` — an image written to `p` together with the stdout line
  `Saved {p}`. -/
inductive ExportEvent
  | mkdirParents (path : String)
  | dryRunLine (path : String)
  | saved (path : String)
  deriving DecidableEq

/-- POSIX `Path / name` for the non-empty directories the tool uses. -/
def pathJoin (dir name : String) : String := dir ++ "/" ++ name

/-- Embedding of `sorted({size for size in sizes if size > 0})` (source line 198): keep
the positive sizes, deduplicate, and sort ascending.  Any dedup order
followed by an ascending sort yields the unique sorted duplicate-free list
with those members, exactly Python's `sorted(set(...))`. -/
def targetSizes (sizes : List Int) : List Int :=
  List.insertionSort (fun a b => a ≤ b) ((sizes.filter fun s => 0 < s).dedup)

/-- Embedding of `export_asset` (source lines 186–206), with its filesystem and stdout
side effects reified as the returned event list: render the base image,
optionally emit the `{slug}_base.png` artifact, then one artifact per
target size `{slug}_{size}.png`; dry runs only print the path. -/
def export_asset (asset : AssetDefinition) (sizes : List Int)
    (output_dir : String) (include_base dry_run : Bool) :
    Except RenderError (List ExportEvent) :=
  match render_asset_grid asset with
  | .error e => .error e
  | .ok _base_image =>
    let baseEvents :=
      if include_base then
        let base_path := pathJoin output_dir (asset.slug ++ "_base.png")
        if dry_run then [ExportEvent.dryRunLine base_path]
        else [ExportEvent.saved base_path]
      else []
    let sizeEvents := (targetSizes sizes).map fun size =>
      let target_path := pathJoin output_dir (asset.slug ++ "_" ++ toString size ++ ".png")
      if dry_run then ExportEvent.dryRunLine target_path
      else ExportEvent.saved target_path
    .ok (baseEvents ++ sizeEvents)

/-- The target paths of one asset's export, in emission order: the optional
`{slug}_base.png` followed by `{slug}_{size}.png` for each target size. -/
def exportPaths (asset : AssetDefinition) (sizes : List Int)
    (output_dir : String) (include_base : Bool) : List String :=
  (if include_base then [pathJoin output_dir (asset.slug ++ "_base.png")] else []) ++
  (targetSizes sizes).map fun size =>
    pathJoin output_dir (asset.slug ++ "_" ++ toString size ++ ".png")

/-- The `(path, written)` summary of an event trace: one pair per artifact,
`written = true` exactly for live writes. -/
def artifactsOf (events : List ExportEvent) : List (String × Bool) :=
  events.filterMap fun e =>
    match e with
    | .dryRunLine p => some (p, false)
    | .saved p => some (p, true)
    | .mkdirParents _ => none

/-- The paths a dry run reports on stdout. -/
def reportedPaths (events : List ExportEvent) : List String :=
  events.filterMap fun e =>
    match e with
    | .dryRunLine p => some p
    | _ => none

/-- The paths a live run writes image files to. -/
def savedPaths (events : List ExportEvent) : List String :=
  events.filterMap fun e =>
    match e with
    | .saved p => some p
    | _ => none

/-- The loop of `main` (source lines 217–224): export every asset in
catalog order, propagating the first error. -/
def exportAll (sizes : List Int) (output_dir : String)
    (include_base dry_run : Bool) :
    List AssetDefinition → Except RenderError (List ExportEvent)
  | [] => .ok []
  | asset :: rest =>
    match export_asset asset sizes output_dir include_base dry_run with
    | .error e => .error e
    | .ok events =>
      match exportAll sizes output_dir include_base dry_run rest with
      | .error e => .error e
      | .ok more => .ok (events ++ more)

/-- Embedding of `main` (source lines 209–224) after argument parsing, generalised over
the asset catalog: unless dry-running, create the output directory, then
export every asset. -/
def mainRun (assets : List AssetDefinition) (sizes : List Int)
    (output_dir : String) (include_base dry_run : Bool) :
    Except RenderError (List ExportEvent) :=
  match exportAll sizes output_dir include_base dry_run assets with
  | .error e => .error e
  | .ok events =>
    .ok ((if dry_run then [] else [ExportEvent.mkdirParents output_dir]) ++ events)

/-! ## Resolver lemmas and claims C3, C5, C6 -/

/-- On non-negative rationals, Python's `int` truncation is the floor. -/
theorem pyInt_eq_floor (q : ℚ) (h : 0 ≤ q) : pyInt q = ⌊q⌋ := by
  rw [pyInt, Rat.floor_def]
  exact Int.tdiv_eq_ediv (Rat.num_nonneg.mpr h) (Int.natCast_nonneg q.den)

-- sanity checks on concrete values
example : hex_to_rgb "#FF0000" = .ok (255, 0, 0) := by decide
example : hex_to_rgb "##FF0000" = .ok (255, 0, 0) := by decide
example : hex_to_rgb "FFF" = .error (.badColour "FFF") := by decide
-- Python's int(s, 16) accepts signed two-character slices, so this colour,
-- which is not six hex digits, still parses: part of why C3 is amended to a
-- length condition.
example : hex_to_rgb "+1+1+1" = .ok (1, 1, 1) := by decide

/-- Evaluation of the alpha computation at opacity `1`. -/
theorem pyInt_one_eval : pyInt ((1 : ℚ) * 255 + 1/2) = 255 := by
  rw [pyInt_eq_floor _ (by norm_num)]; norm_num

/-- A fully opaque red legend entry resolves to opaque red. -/
theorem to_rgba_red_one : to_rgba (some "#FF0000") 1 = .ok (255, 0, 0, 255) := by
  have hx : hex_to_rgb "#FF0000" = .ok (255, 0, 0) := by decide
  simp only [to_rgba, hx]
  rw [if_neg (by norm_num)]
  simp only [pyInt_one_eval, pyMin, pyMax]
  norm_num

example : to_rgba (some "#FF0000") 0 = .ok (0, 0, 0, 0) := by
  simp only [to_rgba]
  rw [if_pos le_rfl]
  rfl

/-- A character with a hexadecimal value is none of the characters
`pyIntHex2` treats specially. -/
theorem hexDigit_not_special {c : Char} {v : Int} (h : pyHexDigitVal c = some v) :
    pyIsSpace c = false ∧ c ≠ '+' ∧ c ≠ '-' ∧ c ≠ '#' := by
  refine ⟨?_, ?_, ?_, ?_⟩
  · cases hsp : pyIsSpace c
    · rfl
    · exfalso
      have hc : c = ' ' ∨ c = '\t' ∨ c = '\n' ∨ c = '\r' ∨ c = '\x0b' ∨ c = '\x0c' := by
        simpa [pyIsSpace] using hsp
      rcases hc with rfl | rfl | rfl | rfl | rfl | rfl <;>
        · rw [show pyHexDigitVal _ = none from by decide] at h
          exact Option.noConfusion h
  · rintro rfl
    rw [show pyHexDigitVal '+' = none from by decide] at h
    exact Option.noConfusion h
  · rintro rfl
    rw [show pyHexDigitVal '-' = none from by decide] at h
    exact Option.noConfusion h
  · rintro rfl
    rw [show pyHexDigitVal '#' = none from by decide] at h
    exact Option.noConfusion h

/-- On two genuine hexadecimal digits, `pyIntHex2` is positional base 16. -/
theorem pyIntHex2_of_digits {c1 c2 : Char} {v1 v2 : Int}
    (h1 : pyHexDigitVal c1 = some v1) (h2 : pyHexDigitVal c2 = some v2) :
    pyIntHex2 c1 c2 = some (16 * v1 + v2) := by
  obtain ⟨hs1, hp1, hm1, -⟩ := hexDigit_not_special h1
  obtain ⟨hs2, -, -, -⟩ := hexDigit_not_special h2
  rw [pyIntHex2]
  rw [if_neg (by simp [hs1]), if_neg (by simp [hs1]), if_neg (by simp [hs2]),
    if_neg hp1, if_neg hm1, h1, h2]

/-- Dropping a block of `#`s stops at the first non-`#` character. -/
theorem dropWhile_hash_replicate (k : Nat) (l : List Char) :
    (List.replicate k '#' ++ l).dropWhile (fun c => c = '#') =
      l.dropWhile (fun c => c = '#') := by
  induction k with
  | zero => rfl
  | succ n ih => simp [List.replicate_succ, List.dropWhile, ih]

/-- The function `pyMin` agrees with the lattice `min` on `Int`. -/
theorem pyMin_eq (a b : Int) : pyMin a b = min a b := (min_def a b).symm

/-- The function `pyMax` agrees with the lattice `max` on `Int`. -/
theorem pyMax_eq (a b : Int) : pyMax a b = max a b := by
  rw [pyMax, max_def]
  rcases le_total a b with h | h
  · rcases eq_or_lt_of_le h with rfl | hlt
    · simp
    · rw [if_pos h, if_neg (not_le.mpr hlt)]
  · rcases eq_or_lt_of_le h with rfl | hlt
    · simp
    · rw [if_pos h]
      rw [if_neg (not_le.mpr hlt)]

/-- On a positive opacity, the alpha the code computes is the clamped
rounding of `opacity * 255`. -/
theorem alpha_eq_round (op : ℚ) (h0 : 0 < op) :
    pyMax 0 (pyMin (pyInt (op * 255 + 1/2)) 255) =
      max 0 (min (round (op * 255)) 255) := by
  rw [pyMax_eq, pyMin_eq, pyInt_eq_floor _ (by positivity), round_eq]

/-- C6: a legend entry with an absent colour or a non-positive opacity
resolves to the transparent sentinel `(0, 0, 0, 0)` regardless of the other
field's value. -/
theorem transparent_sentinel (hex_colour : Option String) (opacity : ℚ)
    (h : hex_colour = none ∨ opacity ≤ 0) :
    to_rgba hex_colour opacity = .ok TRANSPARENT_PIXEL := by
  cases hex_colour with
  | none => rfl
  | some c =>
    rcases h with h | h
    · exact Option.noConfusion h
    · simp only [to_rgba]
      rw [if_pos h]

/-- Witness for C6 at a malformed colour with negative opacity. -/
theorem transparent_sentinel_witness :
    to_rgba (some "not a colour") (-1) = .ok TRANSPARENT_PIXEL :=
  transparent_sentinel (some "not a colour") (-1) (Or.inr (by norm_num))

/-- C3 counterexample: `"##FF0000"` is not six hex digits after removing one
optional leading `#`, yet resolving it with opacity 1 succeeds — because the
code's `lstrip("#")` strips every leading `#`, not just one. -/
theorem hex_optional_hash_counterexample :
    specSixHexAfterOptionalHash "##FF0000" = false ∧
      to_rgba (some "##FF0000") 1 = .ok (255, 0, 0, 255) := by
  constructor
  · decide
  · have hx : hex_to_rgb "##FF0000" = .ok (255, 0, 0) := by decide
    simp only [to_rgba, hx]
    rw [if_neg (by norm_num)]
    simp only [pyInt_one_eval, pyMin, pyMax]
    norm_num

/-- C3 (amended): resolving a legend entry with positive opacity whose colour
string, after stripping every leading `#`, does not have length exactly 6
fails with the malformed-colour error (the `ValueError` raised by
`hex_to_rgb`, the spec's `ConfigurationError`). -/
theorem hex_length_check_error (s : String) (op : ℚ) (h0 : 0 < op)
    (hlen : (s.data.dropWhile (fun c => c = '#')).length ≠ 6) :
    to_rgba (some s) op = .error (.badColour s) := by
  simp only [to_rgba]
  rw [if_neg (not_le.mpr h0)]
  simp only [hex_to_rgb]
  rw [if_neg hlen]

/-- Witness for C3's amended claim at colour `"FFF"`, opacity 1. -/
theorem hex_length_check_error_witness :
    to_rgba (some "FFF") 1 = .error (.badColour "FFF") :=
  hex_length_check_error "FFF" 1 (by norm_num) (by decide)

/-- C5 counterexample: opacity 0 lies in `[0, 1]` and `"#FF0000"` is a valid
six-hex-digit colour, yet the resolved pixel is the transparent sentinel, so
its RGB channels `(0, 0, 0)` differ from the parsed triplet `(255, 0, 0)`. -/
theorem resolved_pixel_zero_opacity_counterexample :
    to_rgba (some "#FF0000") 0 = .ok (0, 0, 0, 0) ∧
      hex_to_rgb "#FF0000" = .ok (255, 0, 0) ∧
      ((0 : Int), (0 : Int), (0 : Int)) ≠ ((255 : Int), (0 : Int), (0 : Int)) := by
  refine ⟨?_, by decide, by decide⟩
  simp only [to_rgba]
  rw [if_pos le_rfl]
  rfl

/-- C5 (amended): for a colour consisting of optional leading `#`s followed
by exactly six hexadecimal digits, and an opacity in `(0, 1]`, the resolved
pixel's RGB channels are exactly the parsed hex triplet and its alpha is
`round(opacity * 255)` clamped to `[0, 255]`. -/
theorem resolved_pixel_rgba (k : Nat) (d1 d2 d3 d4 d5 d6 : Char)
    (v1 v2 v3 v4 v5 v6 : Int)
    (h1 : pyHexDigitVal d1 = some v1) (h2 : pyHexDigitVal d2 = some v2)
    (h3 : pyHexDigitVal d3 = some v3) (h4 : pyHexDigitVal d4 = some v4)
    (h5 : pyHexDigitVal d5 = some v5) (h6 : pyHexDigitVal d6 = some v6)
    (op : ℚ) (h0 : 0 < op) (hle : op ≤ 1) :
    to_rgba (some ⟨List.replicate k '#' ++ [d1, d2, d3, d4, d5, d6]⟩) op =
      .ok (16 * v1 + v2, 16 * v3 + v4, 16 * v5 + v6,
        max 0 (min (round (op * 255)) 255)) := by
  obtain ⟨-, -, -, hh⟩ := hexDigit_not_special h1
  have hx : hex_to_rgb ⟨List.replicate k '#' ++ [d1, d2, d3, d4, d5, d6]⟩ =
      .ok (16 * v1 + v2, 16 * v3 + v4, 16 * v5 + v6) := by
    simp only [hex_to_rgb, dropWhile_hash_replicate]
    rw [List.dropWhile_cons_of_neg (by simpa using hh)]
    simp only [List.length_cons, List.length_nil, List.getD, if_true]
    simp only [List.get?, Option.getD_some]
    rw [pyIntHex2_of_digits h1 h2, pyIntHex2_of_digits h3 h4, pyIntHex2_of_digits h5 h6]
  simp only [to_rgba, hx]
  rw [if_neg (not_le.mpr h0), alpha_eq_round op h0]

/-- Witness for C5's amended claim at colour `"#1F2A44"`, opacity `3/10`. -/
theorem resolved_pixel_rgba_witness :
    to_rgba (some "#1F2A44") (3/10) = .ok (31, 42, 68, 77) := by
  have h := resolved_pixel_rgba 1 '1' 'F' '2' 'A' '4' '4' 1 15 2 10 4 4
    (by decide) (by decide) (by decide) (by decide) (by decide) (by decide)
    (3/10) (by norm_num) (by norm_num)
  have hs : ("#1F2A44" : String) = ⟨List.replicate 1 '#' ++ ['1', 'F', '2', 'A', '4', '4']⟩ := by
    decide
  rw [hs, h]
  norm_num [round_eq, min_def, max_def]

/-! ## Canvas lemmas -/

/-- A canvas that is a `side × side` raster. -/
def SquareD (canvas : Canvas) (side : Nat) : Prop :=
  canvas.length = side ∧ ∀ y, y < side → (canvas.getD y []).length = side

theorem squareD_replicate (side : Nat) :
    SquareD (List.replicate side (List.replicate side TRANSPARENT_PIXEL)) side := by
  refine ⟨List.length_replicate side _, fun y hy => ?_⟩
  rw [List.getD_eq_getElem?_getD, List.getElem?_replicate, if_pos hy]
  simp

theorem get2d_replicate (side x y : Nat) :
    get2d (List.replicate side (List.replicate side TRANSPARENT_PIXEL)) x y =
      TRANSPARENT_PIXEL := by
  simp only [get2d, List.getD_eq_getElem?_getD, List.getElem?_replicate]
  by_cases hy : y < side
  · rw [if_pos hy, Option.getD_some, List.getElem?_replicate]
    by_cases hx : x < side
    · rw [if_pos hx, Option.getD_some]
    · rw [if_neg hx, Option.getD_none]
  · rw [if_neg hy, Option.getD_none]
    simp

theorem get2d_set2d_other (canvas : Canvas) (x y x' y' : Nat) (p : Pixel)
    (h : x' ≠ x ∨ y' ≠ y) :
    get2d (set2d canvas x y p) x' y' = get2d canvas x' y' := by
  rcases eq_or_ne y' y with rfl | hy
  · have hx : x' ≠ x := by
      rcases h with hx | hy'
      · exact hx
      · exact absurd rfl hy'
    simp only [get2d, set2d, List.getD_eq_getElem?_getD]
    rcases Nat.lt_or_ge y' canvas.length with hlt | hge
    · rw [List.getElem?_set_eq_of_lt _ hlt, Option.getD_some,
        List.getElem?_set_ne (Ne.symm hx)]
    · rw [List.set_eq_of_length_le hge]
  · simp only [get2d, set2d, List.getD_eq_getElem?_getD]
    rw [List.getElem?_set_ne (Ne.symm hy)]

theorem get2d_set2d_same (canvas : Canvas) (x y : Nat) (p : Pixel)
    (hy : y < canvas.length) (hx : x < (canvas.getD y []).length) :
    get2d (set2d canvas x y p) x y = p := by
  simp only [get2d, set2d, List.getD_eq_getElem?_getD]
  rw [List.getElem?_set_eq_of_lt _ hy, Option.getD_some,
    List.getElem?_set_eq_of_lt _ (by simpa [List.getD_eq_getElem?_getD] using hx),
    Option.getD_some]

theorem squareD_set2d (canvas : Canvas) (side x y : Nat) (p : Pixel)
    (sq : SquareD canvas side) : SquareD (set2d canvas x y p) side := by
  refine ⟨by simpa [set2d] using sq.1, fun y' hy' => ?_⟩
  rcases eq_or_ne y' y with rfl | hne
  · rcases Nat.lt_or_ge y' canvas.length with hlt | hge
    · simp only [set2d, List.getD_eq_getElem?_getD]
      rw [List.getElem?_set_eq_of_lt _ hlt, Option.getD_some, List.length_set]
      have := sq.2 y' hy'
      simpa [List.getD_eq_getElem?_getD] using this
    · rw [set2d, List.set_eq_of_length_le hge]
      exact sq.2 y' hy'
  · simp only [set2d, List.getD_eq_getElem?_getD]
    rw [List.getElem?_set_ne (Ne.symm hne)]
    have := sq.2 y' hy'
    simpa [List.getD_eq_getElem?_getD] using this

/-- Association-list lookup succeeds only on recorded keys. -/
theorem lookup_some_mem {α β : Type _} [BEq α] [LawfulBEq α]
    (l : List (α × β)) (k : α) (v : β) (h : l.lookup k = some v) :
    k ∈ l.map Prod.fst := by
  induction l with
  | nil => simp [List.lookup] at h
  | cons p rest ih =>
    rw [List.lookup] at h
    cases hk : k == p.1 with
    | true =>
      simp only [List.map_cons, List.mem_cons]
      exact Or.inl (eq_of_beq hk)
    | false =>
      rw [hk] at h
      simp only [List.map_cons, List.mem_cons]
      exact Or.inr (ih h)

theorem lookup_none_of_not_mem {α β : Type _} [BEq α] [LawfulBEq α]
    (l : List (α × β)) (k : α) (h : k ∉ l.map Prod.fst) :
    l.lookup k = none := by
  cases hl : l.lookup k with
  | none => rfl
  | some v => exact absurd (lookup_some_mem l k v hl) h

/-- Normalising a legend keeps the symbols, in order. -/
theorem normalise_legend_keys (legend : Legend) (nl : List (Char × Pixel))
    (h : normalise_legend legend = .ok nl) :
    nl.map Prod.fst = legend.map Prod.fst := by
  induction legend generalizing nl with
  | nil =>
    simp only [normalise_legend] at h
    cases h
    rfl
  | cons e rest ih =>
    obtain ⟨symbol, hex_colour, opacity⟩ := e
    rw [normalise_legend] at h
    cases hp : to_rgba hex_colour opacity with
    | error e => rw [hp] at h; exact Except.noConfusion h
    | ok pixel =>
      rw [hp] at h
      cases hr : normalise_legend rest with
      | error e => rw [hr] at h; exact Except.noConfusion h
      | ok tail =>
        rw [hr] at h
        cases h
        simp [ih tail hr]

/-- The seed of `List.foldl max` never exceeds the result. -/
theorem le_foldl_max (l : List Nat) (b : Nat) : b ≤ l.foldl max b := by
  induction l generalizing b with
  | nil => exact le_rfl
  | cons x rest ih => exact le_trans (Nat.le_max_left b x) (ih (max b x))

/-- Every member of the list is bounded by `List.foldl max`. -/
theorem mem_le_foldl_max (l : List Nat) (b a : Nat) (ha : a ∈ l) :
    a ≤ l.foldl max b := by
  induction l generalizing b with
  | nil => exact absurd ha (List.not_mem_nil a)
  | cons x rest ih =>
    rcases List.mem_cons.mp ha with rfl | hmem
    · exact le_trans (Nat.le_max_right b a) (le_foldl_max rest (max b a))
    · exact ih (max b x) hmem

/-- Rows never overflow the canvas side `max(row_count, max_row_length)`. -/
theorem row_len_le_side (grid : List (List Char)) (row : List Char)
    (h : row ∈ grid) : row.length ≤ max grid.length (maxRowLen grid) :=
  le_trans
    (mem_le_foldl_max (grid.map List.length) 0 row.length
      (List.mem_map_of_mem List.length h))
    (Nat.le_max_right _ _)

/-! ## Painting lemmas -/

/-- Unfolding `paintRow` when the head symbol is unknown. -/
theorem paintRow_cons_none (legend : List (Char × Pixel)) (slug : String)
    (hOff vOff rowIdx colIdx : Nat) (sym : Char) (rest : List Char)
    (canvas : Canvas) (hl : legend.lookup sym = none) :
    paintRow legend slug hOff vOff rowIdx colIdx (sym :: rest) canvas =
      .error (.unknownSymbol sym slug (sortedSymbols legend)) := by
  rw [paintRow, hl]

/-- Unfolding `paintRow` when the head symbol resolves. -/
theorem paintRow_cons_some (legend : List (Char × Pixel)) (slug : String)
    (hOff vOff rowIdx colIdx : Nat) (sym : Char) (rest : List Char)
    (canvas : Canvas) (pixel : Pixel) (hl : legend.lookup sym = some pixel) :
    paintRow legend slug hOff vOff rowIdx colIdx (sym :: rest) canvas =
      if pixel = TRANSPARENT_PIXEL then
        paintRow legend slug hOff vOff rowIdx (colIdx + 1) rest canvas
      else
        paintRow legend slug hOff vOff rowIdx (colIdx + 1) rest
          (set2d canvas (hOff + colIdx) (vOff + rowIdx) pixel) := by
  rw [paintRow, hl]

/-- Painting a row either succeeds — and then every symbol of the row is
known — or stops at an unknown symbol with the `KeyError` of the source. -/
theorem paintRow_cases (legend : List (Char × Pixel)) (slug : String)
    (hOff vOff rowIdx : Nat) (row : List Char) :
    ∀ (colIdx : Nat) (canvas : Canvas),
      (∃ canvas', paintRow legend slug hOff vOff rowIdx colIdx row canvas = .ok canvas' ∧
        ∀ c ∈ row, (legend.lookup c).isSome) ∨
      (∃ sym, sym ∈ row ∧ legend.lookup sym = none ∧
        paintRow legend slug hOff vOff rowIdx colIdx row canvas =
          .error (.unknownSymbol sym slug (sortedSymbols legend))) := by
  induction row with
  | nil =>
    intro colIdx canvas
    exact Or.inl ⟨canvas, rfl, by simp⟩
  | cons sym rest ih =>
    intro colIdx canvas
    cases hl : legend.lookup sym with
    | none =>
      refine Or.inr ⟨sym, List.mem_cons_self sym rest, hl, ?_⟩
      exact paintRow_cons_none legend slug hOff vOff rowIdx colIdx sym rest canvas hl
    | some pixel =>
      by_cases hp : pixel = TRANSPARENT_PIXEL
      · rcases ih (colIdx + 1) canvas with ⟨canvas', hok, hknown⟩ | ⟨s, hs, hnone, herr⟩
        · refine Or.inl ⟨canvas', ?_, ?_⟩
          · rw [paintRow_cons_some legend slug hOff vOff rowIdx colIdx sym rest canvas
              pixel hl, if_pos hp]
            exact hok
          · intro c hc
            rcases List.mem_cons.mp hc with rfl | hc
            · simp [hl]
            · exact hknown c hc
        · refine Or.inr ⟨s, List.mem_cons_of_mem sym hs, hnone, ?_⟩
          rw [paintRow_cons_some legend slug hOff vOff rowIdx colIdx sym rest canvas
            pixel hl, if_pos hp]
          exact herr
      · rcases ih (colIdx + 1) (set2d canvas (hOff + colIdx) (vOff + rowIdx) pixel) with
          ⟨canvas', hok, hknown⟩ | ⟨s, hs, hnone, herr⟩
        · refine Or.inl ⟨canvas', ?_, ?_⟩
          · rw [paintRow_cons_some legend slug hOff vOff rowIdx colIdx sym rest canvas
              pixel hl, if_neg hp]
            exact hok
          · intro c hc
            rcases List.mem_cons.mp hc with rfl | hc
            · simp [hl]
            · exact hknown c hc
        · refine Or.inr ⟨s, List.mem_cons_of_mem sym hs, hnone, ?_⟩
          rw [paintRow_cons_some legend slug hOff vOff rowIdx colIdx sym rest canvas
            pixel hl, if_neg hp]
          exact herr

/-- A successful `paintRow` preserves the canvas dimensions. -/
theorem paintRow_squareD (legend : List (Char × Pixel)) (slug : String)
    (hOff vOff rowIdx : Nat) (row : List Char) :
    ∀ (colIdx : Nat) (canvas canvas' : Canvas) (side : Nat),
      paintRow legend slug hOff vOff rowIdx colIdx row canvas = .ok canvas' →
      SquareD canvas side → SquareD canvas' side := by
  induction row with
  | nil =>
    intro colIdx canvas canvas' side h sq
    rw [paintRow] at h
    cases h
    exact sq
  | cons sym rest ih =>
    intro colIdx canvas canvas' side h sq
    cases hl : legend.lookup sym with
    | none =>
      rw [paintRow_cons_none legend slug hOff vOff rowIdx colIdx sym rest canvas hl] at h
      exact Except.noConfusion h
    | some pixel =>
      rw [paintRow_cons_some legend slug hOff vOff rowIdx colIdx sym rest canvas
        pixel hl] at h
      by_cases hp : pixel = TRANSPARENT_PIXEL
      · rw [if_pos hp] at h
        exact ih _ _ _ _ h sq
      · rw [if_neg hp] at h
        exact ih _ _ _ _ h (squareD_set2d _ _ _ _ _ sq)

/-- A successful `paintRow` leaves untouched every position whose matching
cells (same row line, covered column) all resolve to the transparent
sentinel — in particular every position outside the row's span. -/
theorem paintRow_get_eq (legend : List (Char × Pixel)) (slug : String)
    (hOff vOff rowIdx : Nat) (row : List Char) :
    ∀ (colIdx : Nat) (canvas canvas' : Canvas),
      paintRow legend slug hOff vOff rowIdx colIdx row canvas = .ok canvas' →
      ∀ x y,
        (∀ j, (hj : j < row.length) → y = vOff + rowIdx → x = hOff + colIdx + j →
          ∀ p, legend.lookup (row.get ⟨j, hj⟩) = some p → p = TRANSPARENT_PIXEL) →
        get2d canvas' x y = get2d canvas x y := by
  induction row with
  | nil =>
    intro colIdx canvas canvas' h x y _
    rw [paintRow] at h
    cases h
    rfl
  | cons sym rest ih =>
    intro colIdx canvas canvas' h x y cond
    cases hl : legend.lookup sym with
    | none =>
      rw [paintRow_cons_none legend slug hOff vOff rowIdx colIdx sym rest canvas hl] at h
      exact Except.noConfusion h
    | some pixel =>
      rw [paintRow_cons_some legend slug hOff vOff rowIdx colIdx sym rest canvas
        pixel hl] at h
      have condRest : ∀ j, (hj : j < rest.length) → y = vOff + rowIdx →
          x = hOff + (colIdx + 1) + j →
          ∀ p, legend.lookup (rest.get ⟨j, hj⟩) = some p → p = TRANSPARENT_PIXEL :=
        fun j hj hy hx p hp =>
          cond (j + 1) (by simpa using Nat.succ_lt_succ hj) hy (by omega) p hp
      by_cases hp : pixel = TRANSPARENT_PIXEL
      · rw [if_pos hp] at h
        exact ih _ _ _ h x y condRest
      · rw [if_neg hp] at h
        have hpos : x ≠ hOff + colIdx ∨ y ≠ vOff + rowIdx := by
          by_contra hcon
          push_neg at hcon
          obtain ⟨hx, hy⟩ := hcon
          exact hp (cond 0 (by simp) hy (by omega) pixel hl)
        rw [ih _ _ _ h x y condRest,
          get2d_set2d_other canvas (hOff + colIdx) (vOff + rowIdx) x y pixel hpos]

/-- A successful `paintRow` writes the resolved pixel of every
non-transparent cell at `(hOff + column, vOff + rowIdx)`. -/
theorem paintRow_get_painted (legend : List (Char × Pixel)) (slug : String)
    (hOff vOff rowIdx side : Nat) (row : List Char) :
    ∀ (colIdx : Nat) (canvas canvas' : Canvas),
      SquareD canvas side → vOff + rowIdx < side → hOff + colIdx + row.length ≤ side →
      paintRow legend slug hOff vOff rowIdx colIdx row canvas = .ok canvas' →
      ∀ j, (hj : j < row.length) → ∀ p, legend.lookup (row.get ⟨j, hj⟩) = some p →
        p ≠ TRANSPARENT_PIXEL →
        get2d canvas' (hOff + colIdx + j) (vOff + rowIdx) = p := by
  induction row with
  | nil =>
    intro colIdx canvas canvas' _ _ _ _ j hj
    exact absurd hj (by simp)
  | cons sym rest ih =>
    intro colIdx canvas canvas' sq hy hxlen h j hj p hp hptrans
    cases hl : legend.lookup sym with
    | none =>
      rw [paintRow_cons_none legend slug hOff vOff rowIdx colIdx sym rest canvas hl] at h
      exact Except.noConfusion h
    | some pixel =>
      rw [paintRow_cons_some legend slug hOff vOff rowIdx colIdx sym rest canvas
        pixel hl] at h
      cases j with
      | zero =>
        have hpe : pixel = p := by
          rw [show (sym :: rest).get ⟨0, hj⟩ = sym from rfl] at hp
          rw [hl] at hp
          exact Option.some.inj hp
        subst hpe
        rw [if_neg hptrans] at h
        have hnotouch : get2d canvas' (hOff + colIdx + 0) (vOff + rowIdx) =
            get2d (set2d canvas (hOff + colIdx) (vOff + rowIdx) pixel)
              (hOff + colIdx + 0) (vOff + rowIdx) := by
          refine paintRow_get_eq legend slug hOff vOff rowIdx rest _ _ _ h _ _ ?_
          intro j' hj' hy' hx' p' hp'
          exact absurd hx' (by omega)
        rw [hnotouch, Nat.add_zero]
        refine get2d_set2d_same canvas _ _ pixel ?_ ?_
        · rw [sq.1]; exact hy
        · rw [sq.2 _ hy]
          have : (sym :: rest).length = rest.length + 1 := rfl
          omega
      | succ j' =>
        have hj'' : j' < rest.length := by simpa using hj
        by_cases hptr : pixel = TRANSPARENT_PIXEL
        · rw [if_pos hptr] at h
          have := ih (colIdx + 1) canvas canvas' sq hy
            (by simp only [List.length_cons] at hxlen; omega) h j' hj'' p hp hptrans
          rw [show hOff + colIdx + (j' + 1) = hOff + (colIdx + 1) + j' from by omega]
          exact this
        · rw [if_neg hptr] at h
          have := ih (colIdx + 1) _ canvas'
            (squareD_set2d canvas side (hOff + colIdx) (vOff + rowIdx) pixel sq) hy
            (by simp only [List.length_cons] at hxlen; omega) h j' hj'' p hp hptrans
          rw [show hOff + colIdx + (j' + 1) = hOff + (colIdx + 1) + j' from by omega]
          exact this

/-- Unfolding `paintRows` when the head row fails. -/
theorem paintRows_cons_error (legend : List (Char × Pixel)) (slug : String)
    (side vOff rowIdx : Nat) (row : List Char) (rest : List (List Char))
    (canvas : Canvas) (e : RenderError)
    (h : paintRow legend slug ((side - row.length) / 2) vOff rowIdx 0 row canvas = .error e) :
    paintRows legend slug side vOff rowIdx (row :: rest) canvas = .error e := by
  rw [paintRows, h]

/-- Unfolding `paintRows` when the head row paints. -/
theorem paintRows_cons_ok (legend : List (Char × Pixel)) (slug : String)
    (side vOff rowIdx : Nat) (row : List Char) (rest : List (List Char))
    (canvas canvas₁ : Canvas)
    (h : paintRow legend slug ((side - row.length) / 2) vOff rowIdx 0 row canvas = .ok canvas₁) :
    paintRows legend slug side vOff rowIdx (row :: rest) canvas =
      paintRows legend slug side vOff (rowIdx + 1) rest canvas₁ := by
  rw [paintRows, h]

/-- Painting the rows either succeeds — every symbol being known — or stops
at some unknown symbol of the grid with the `KeyError` of the source. -/
theorem paintRows_cases (legend : List (Char × Pixel)) (slug : String)
    (side vOff : Nat) (rows : List (List Char)) :
    ∀ (rowIdx : Nat) (canvas : Canvas),
      (∃ canvas', paintRows legend slug side vOff rowIdx rows canvas = .ok canvas' ∧
        ∀ row ∈ rows, ∀ c ∈ row, (legend.lookup c).isSome) ∨
      (∃ sym, (∃ row ∈ rows, sym ∈ row) ∧ legend.lookup sym = none ∧
        paintRows legend slug side vOff rowIdx rows canvas =
          .error (.unknownSymbol sym slug (sortedSymbols legend))) := by
  induction rows with
  | nil =>
    intro rowIdx canvas
    exact Or.inl ⟨canvas, rfl, by simp⟩
  | cons row rest ih =>
    intro rowIdx canvas
    rcases paintRow_cases legend slug ((side - row.length) / 2) vOff rowIdx row 0 canvas with
      ⟨canvas₁, hok, hknown⟩ | ⟨s, hs, hnone, herr⟩
    · rcases ih (rowIdx + 1) canvas₁ with ⟨canvas', hok', hknown'⟩ | ⟨s, hs, hnone, herr⟩
      · refine Or.inl ⟨canvas', ?_, ?_⟩
        · rw [paintRows_cons_ok legend slug side vOff rowIdx row rest canvas canvas₁ hok]
          exact hok'
        · intro r hr
          rcases List.mem_cons.mp hr with rfl | hr
          · exact hknown
          · exact hknown' r hr
      · refine Or.inr ⟨s, ?_, hnone, ?_⟩
        · obtain ⟨r, hr, hsr⟩ := hs
          exact ⟨r, List.mem_cons_of_mem row hr, hsr⟩
        · rw [paintRows_cons_ok legend slug side vOff rowIdx row rest canvas canvas₁ hok]
          exact herr
    · refine Or.inr ⟨s, ⟨row, List.mem_cons_self row rest, hs⟩, hnone, ?_⟩
      exact paintRows_cons_error legend slug side vOff rowIdx row rest canvas _ herr

/-- A successful `paintRows` preserves the canvas dimensions. -/
theorem paintRows_squareD (legend : List (Char × Pixel)) (slug : String)
    (side vOff : Nat) (rows : List (List Char)) :
    ∀ (rowIdx : Nat) (canvas canvas' : Canvas),
      paintRows legend slug side vOff rowIdx rows canvas = .ok canvas' →
      SquareD canvas side → SquareD canvas' side := by
  induction rows with
  | nil =>
    intro rowIdx canvas canvas' h sq
    rw [paintRows] at h
    cases h
    exact sq
  | cons row rest ih =>
    intro rowIdx canvas canvas' h sq
    cases hpr : paintRow legend slug ((side - row.length) / 2) vOff rowIdx 0 row canvas with
    | error e =>
      rw [paintRows_cons_error legend slug side vOff rowIdx row rest canvas e hpr] at h
      exact Except.noConfusion h
    | ok canvas₁ =>
      rw [paintRows_cons_ok legend slug side vOff rowIdx row rest canvas canvas₁ hpr] at h
      exact ih _ _ _ h
        (paintRow_squareD legend slug ((side - row.length) / 2) vOff rowIdx row _ _ _ _ hpr sq)

/-- A successful `paintRows` leaves untouched every position whose matching
cells all resolve to the transparent sentinel — in particular everything
outside the centered grid. -/
theorem paintRows_get_eq (legend : List (Char × Pixel)) (slug : String)
    (side vOff : Nat) (rows : List (List Char)) :
    ∀ (rowIdx : Nat) (canvas canvas' : Canvas),
      paintRows legend slug side vOff rowIdx rows canvas = .ok canvas' →
      ∀ x y,
        (∀ i, (hi : i < rows.length) → ∀ j, (hj : j < (rows.get ⟨i, hi⟩).length) →
          y = vOff + rowIdx + i → x = (side - (rows.get ⟨i, hi⟩).length) / 2 + j →
          ∀ p, legend.lookup ((rows.get ⟨i, hi⟩).get ⟨j, hj⟩) = some p →
          p = TRANSPARENT_PIXEL) →
        get2d canvas' x y = get2d canvas x y := by
  induction rows with
  | nil =>
    intro rowIdx canvas canvas' h x y _
    rw [paintRows] at h
    cases h
    rfl
  | cons row rest ih =>
    intro rowIdx canvas canvas' h x y cond
    cases hpr : paintRow legend slug ((side - row.length) / 2) vOff rowIdx 0 row canvas with
    | error e =>
      rw [paintRows_cons_error legend slug side vOff rowIdx row rest canvas e hpr] at h
      exact Except.noConfusion h
    | ok canvas₁ =>
      rw [paintRows_cons_ok legend slug side vOff rowIdx row rest canvas canvas₁ hpr] at h
      have hrest : get2d canvas' x y = get2d canvas₁ x y := by
        refine ih (rowIdx + 1) canvas₁ canvas' h x y ?_
        intro i hi j hj hy hx p hp
        exact cond (i + 1) (by simpa using Nat.succ_lt_succ hi) j hj (by omega) hx p hp
      have hhead : get2d canvas₁ x y = get2d canvas x y := by
        refine paintRow_get_eq legend slug ((side - row.length) / 2) vOff rowIdx row
          0 canvas canvas₁ hpr x y ?_
        intro j hj hy hx p hp
        refine cond 0 (by simp) j hj (by omega) ?_ p hp
        show x = (side - row.length) / 2 + j
        omega
      rw [hrest, hhead]

/-- A successful `paintRows` paints the resolved pixel of every
non-transparent cell at its centered position. -/
theorem paintRows_get_painted (legend : List (Char × Pixel)) (slug : String)
    (side vOff : Nat) (rows : List (List Char)) :
    ∀ (rowIdx : Nat) (canvas canvas' : Canvas),
      SquareD canvas side → vOff + rowIdx + rows.length ≤ side →
      (∀ row ∈ rows, row.length ≤ side) →
      paintRows legend slug side vOff rowIdx rows canvas = .ok canvas' →
      ∀ i, (hi : i < rows.length) → ∀ j, (hj : j < (rows.get ⟨i, hi⟩).length) →
        ∀ p, legend.lookup ((rows.get ⟨i, hi⟩).get ⟨j, hj⟩) = some p →
        p ≠ TRANSPARENT_PIXEL →
        get2d canvas' ((side - (rows.get ⟨i, hi⟩).length) / 2 + j)
          (vOff + rowIdx + i) = p := by
  induction rows with
  | nil =>
    intro rowIdx canvas canvas' _ _ _ _ i hi
    exact absurd hi (by simp)
  | cons row rest ih =>
    intro rowIdx canvas canvas' sq hrows hwidth h i hi j hj p hp hptrans
    cases hpr : paintRow legend slug ((side - row.length) / 2) vOff rowIdx 0 row canvas with
    | error e =>
      rw [paintRows_cons_error legend slug side vOff rowIdx row rest canvas e hpr] at h
      exact Except.noConfusion h
    | ok canvas₁ =>
      rw [paintRows_cons_ok legend slug side vOff rowIdx row rest canvas canvas₁ hpr] at h
      cases i with
      | zero =>
        have hrowlen : row.length ≤ side := hwidth row (List.mem_cons_self row rest)
        have hdiv := Nat.div_le_self (side - row.length) 2
        have hpainted : get2d canvas₁ ((side - row.length) / 2 + 0 + j) (vOff + rowIdx) = p := by
          refine paintRow_get_painted legend slug ((side - row.length) / 2) vOff rowIdx
            side row 0 canvas canvas₁ sq (by simp only [List.length_cons] at hrows; omega)
            (by omega) hpr j hj p hp hptrans
        have hkept : get2d canvas' ((side - row.length) / 2 + 0 + j) (vOff + rowIdx) =
            get2d canvas₁ ((side - row.length) / 2 + 0 + j) (vOff + rowIdx) := by
          refine paintRows_get_eq legend slug side vOff rest (rowIdx + 1) canvas₁ canvas' h _ _ ?_
          intro i' hi' j' hj' hy hx p' hp'
          exact absurd hy (by omega)
        have : get2d canvas' ((side - row.length) / 2 + 0 + j) (vOff + rowIdx) = p := by
          rw [hkept, hpainted]
        simpa using this
      | succ i' =>
        have hi'' : i' < rest.length := by simpa using hi
        have := ih (rowIdx + 1) canvas₁ canvas'
          (paintRow_squareD legend slug ((side - row.length) / 2) vOff rowIdx row
            0 canvas canvas₁ side hpr sq)
          (by simp only [List.length_cons] at hrows; omega)
          (fun r hr => hwidth r (List.mem_cons_of_mem row hr)) h i' hi'' j hj p hp hptrans
        rw [show vOff + rowIdx + (i' + 1) = vOff + (rowIdx + 1) + i' from by omega]
        exact this

/-- Recorded keys always have a lookup result. -/
theorem lookup_isSome_of_mem {α β : Type _} [BEq α] [LawfulBEq α]
    (l : List (α × β)) (k : α) (h : k ∈ l.map Prod.fst) :
    (l.lookup k).isSome := by
  induction l with
  | nil => simp at h
  | cons p rest ih =>
    rw [List.lookup]
    cases hk : k == p.1 with
    | true => simp
    | false =>
      refine ih ?_
      rw [List.map_cons, List.mem_cons] at h
      rcases h with rfl | hmem
      · exact absurd hk (by simp)
      · exact hmem

/-- On a non-empty grid with a resolvable legend, `render_asset_grid` is the
painting loop over a fresh transparent square canvas. -/
theorem render_eq_paintRows (asset : AssetDefinition) (nl : List (Char × Pixel))
    (r : List Char) (rs : List (List Char))
    (hg : asset.grid = r :: rs)
    (hnl : normalise_legend asset.legend = .ok nl) :
    render_asset_grid asset =
      paintRows nl asset.slug (max asset.grid.length (maxRowLen asset.grid))
        ((max asset.grid.length (maxRowLen asset.grid) - asset.grid.length) / 2) 0 asset.grid
        (List.replicate (max asset.grid.length (maxRowLen asset.grid))
          (List.replicate (max asset.grid.length (maxRowLen asset.grid))
            TRANSPARENT_PIXEL)) := by
  rw [render_asset_grid, hnl, hg]

/-- C1: for a non-empty grid of `R` rows and maximum row length `C` whose
rasterization succeeds, the canvas is square of side `max(R, C)`, and every
cell whose legend entry is non-transparent lands at horizontal offset
`(side - row_length) // 2 + column` — the horizontal centering being
computed per row — and vertical offset `(side - R) // 2 + row`. -/
theorem render_canvas_geometry (asset : AssetDefinition) (canvas : Canvas)
    (nl : List (Char × Pixel))
    (hne : asset.grid ≠ [])
    (hnl : normalise_legend asset.legend = .ok nl)
    (hrender : render_asset_grid asset = .ok canvas) :
    canvas.length = max asset.grid.length (maxRowLen asset.grid) ∧
    (∀ row ∈ canvas, row.length = max asset.grid.length (maxRowLen asset.grid)) ∧
    (∀ i, (hi : i < asset.grid.length) →
      ∀ j, (hj : j < (asset.grid.get ⟨i, hi⟩).length) →
      ∀ p, nl.lookup ((asset.grid.get ⟨i, hi⟩).get ⟨j, hj⟩) = some p →
      p ≠ TRANSPARENT_PIXEL →
      get2d canvas
        ((max asset.grid.length (maxRowLen asset.grid) -
            (asset.grid.get ⟨i, hi⟩).length) / 2 + j)
        ((max asset.grid.length (maxRowLen asset.grid) -
            asset.grid.length) / 2 + i) = p) := by
  obtain ⟨r, rs, hg⟩ : ∃ a l, asset.grid = a :: l := by
    cases hgrid : asset.grid with
    | nil => exact absurd hgrid hne
    | cons a l => exact ⟨a, l, rfl⟩
  · rw [render_eq_paintRows asset nl r rs hg hnl] at hrender
    have sq : SquareD canvas (max asset.grid.length (maxRowLen asset.grid)) :=
      paintRows_squareD nl asset.slug _ _ asset.grid 0 _ canvas hrender
        (squareD_replicate _)
    refine ⟨sq.1, ?_, ?_⟩
    · intro row hrow
      obtain ⟨n, hn⟩ := List.mem_iff_get?.mp hrow
      obtain ⟨hnlt, -⟩ := List.get?_eq_some.mp hn
      have hlen := sq.2 n (by rw [← sq.1]; exact hnlt)
      rw [List.getD_eq_getElem?_getD, ← List.get?_eq_getElem?, hn,
        Option.getD_some] at hlen
      exact hlen
    · intro i hi j hj p hp hptrans
      have hR : asset.grid.length ≤ max asset.grid.length (maxRowLen asset.grid) :=
        Nat.le_max_left _ _
      have hdiv := Nat.div_le_self
        (max asset.grid.length (maxRowLen asset.grid) - asset.grid.length) 2
      have := paintRows_get_painted nl asset.slug
        (max asset.grid.length (maxRowLen asset.grid))
        ((max asset.grid.length (maxRowLen asset.grid) - asset.grid.length) / 2)
        asset.grid 0 _ canvas (squareD_replicate _) (by omega)
        (fun row hrow => row_len_le_side asset.grid row hrow) hrender
        i hi j hj p hp hptrans
      rw [show (max asset.grid.length (maxRowLen asset.grid) -
          asset.grid.length) / 2 + 0 + i =
          (max asset.grid.length (maxRowLen asset.grid) -
          asset.grid.length) / 2 + i from by omega] at this
      exact this

/-- C2: if the grid contains a symbol with no legend entry (and the legend
itself resolves), rasterization fails with the `KeyError` naming some such
offending symbol, the asset's slug, and the sorted list of known symbols. -/
theorem unknown_symbol_error (asset : AssetDefinition) (nl : List (Char × Pixel))
    (hnl : normalise_legend asset.legend = .ok nl)
    (hmiss : ∃ row ∈ asset.grid, ∃ c ∈ row, c ∉ asset.legend.map Prod.fst) :
    ∃ sym, (∃ row ∈ asset.grid, sym ∈ row) ∧ sym ∉ asset.legend.map Prod.fst ∧
      render_asset_grid asset =
        .error (.unknownSymbol sym asset.slug
          (List.insertionSort (fun a b => a ≤ b) (asset.legend.map Prod.fst))) := by
  obtain ⟨r, rs, hg⟩ : ∃ a l, asset.grid = a :: l := by
    cases hgrid : asset.grid with
    | nil =>
      rw [hgrid] at hmiss
      obtain ⟨row, hrow, -⟩ := hmiss
      exact absurd hrow (List.not_mem_nil row)
    | cons a l => exact ⟨a, l, rfl⟩
  · rcases paintRows_cases nl asset.slug (max asset.grid.length (maxRowLen asset.grid))
      ((max asset.grid.length (maxRowLen asset.grid) - asset.grid.length) / 2)
      asset.grid 0
      (List.replicate (max asset.grid.length (maxRowLen asset.grid))
        (List.replicate (max asset.grid.length (maxRowLen asset.grid))
          TRANSPARENT_PIXEL)) with
      ⟨canvas', _, hknown⟩ | ⟨s, hs, hnone, herr⟩
    · exfalso
      obtain ⟨row, hrow, c, hc, hcnot⟩ := hmiss
      have hno : nl.lookup c = none :=
        lookup_none_of_not_mem nl c
          (by rw [normalise_legend_keys asset.legend nl hnl]; exact hcnot)
      have := hknown row hrow c hc
      rw [hno] at this
      simp at this
    · refine ⟨s, hs, ?_, ?_⟩
      · intro hmem
        have : (nl.lookup s).isSome :=
          lookup_isSome_of_mem nl s
            (by rw [normalise_legend_keys asset.legend nl hnl]; exact hmem)
        rw [hnone] at this
        simp at this
      · rw [render_eq_paintRows asset nl r rs hg hnl, herr, sortedSymbols,
          normalise_legend_keys asset.legend nl hnl]

/-- C9: in a successful rasterization, any canvas position not covered by a
non-transparently resolved cell of the centered grid — in particular any
position outside the centered grid — holds the transparent sentinel. -/
theorem untouched_pixels_transparent (asset : AssetDefinition) (canvas : Canvas)
    (nl : List (Char × Pixel))
    (hnl : normalise_legend asset.legend = .ok nl)
    (hrender : render_asset_grid asset = .ok canvas)
    (x y : Nat)
    (hnp : paintedAt asset.grid nl (max asset.grid.length (maxRowLen asset.grid))
      ((max asset.grid.length (maxRowLen asset.grid) - asset.grid.length) / 2)
      x y = false) :
    get2d canvas x y = TRANSPARENT_PIXEL := by
  obtain ⟨r, rs, hg⟩ : ∃ a l, asset.grid = a :: l := by
    cases hgrid : asset.grid with
    | nil =>
      exfalso
      rw [render_asset_grid, hnl, hgrid] at hrender
      exact Except.noConfusion hrender
    | cons a l => exact ⟨a, l, rfl⟩
  · rw [render_eq_paintRows asset nl r rs hg hnl] at hrender
    have heq := paintRows_get_eq nl asset.slug
      (max asset.grid.length (maxRowLen asset.grid))
      ((max asset.grid.length (maxRowLen asset.grid) - asset.grid.length) / 2)
      asset.grid 0 _ canvas hrender x y ?_
    · rw [heq, get2d_replicate]
    · intro i hi j hj hy hx p hp
      rw [paintedAt, List.any_eq_false] at hnp
      have h1 := hnp i (List.mem_range.mpr hi)
      simp only [Bool.not_eq_true] at h1
      rw [List.any_eq_false] at h1
      have h2 := h1 j
        (by rw [List.mem_range, List.getD_eq_get asset.grid [] hi]; exact hj)
      simp only [Bool.not_eq_true] at h2
      rw [List.getD_eq_get asset.grid [] hi,
        List.getD_eq_get (asset.grid.get ⟨i, hi⟩) ' ' hj, hp] at h2
      have hy' : y = (max asset.grid.length (maxRowLen asset.grid) -
          asset.grid.length) / 2 + i := by omega
      have hx' : x = (max asset.grid.length (maxRowLen asset.grid) -
          (asset.grid.get ⟨i, hi⟩).length) / 2 + j := hx
      rw [decide_eq_true hy', decide_eq_true hx'] at h2
      simpa using h2

/-- C10: rasterizing an asset whose grid is empty always fails — either on a
malformed legend colour or, once the legend resolves, on the `TypeError`
from `max(len(grid), *(len(row) for row in grid))` receiving a single
non-iterable integer — and never produces a canvas. -/
theorem empty_grid_fails (slug : String) (legend : Legend) :
    ∃ e, render_asset_grid ⟨slug, [], legend⟩ = .error e := by
  cases hnl : normalise_legend legend with
  | error e => exact ⟨e, by simp only [render_asset_grid, hnl]⟩
  | ok nl => exact ⟨.emptyGrid, by simp only [render_asset_grid, hnl]⟩

/-- Evaluation of `normalise_legend` on `wAsset`'s legend. -/
theorem normalise_legend_w : normalise_legend wAsset.legend = .ok wNl := by
  simp only [wAsset, normalise_legend, to_rgba_red_one]
  simp only [to_rgba]
  rfl

/-- Evaluation of `render_asset_grid` on `wAsset`. -/
theorem render_w : render_asset_grid wAsset = .ok wCanvas := by
  rw [render_eq_paintRows wAsset wNl ['A', 'B'] [['A']] rfl normalise_legend_w]
  decide

/-- Evaluation of `normalise_legend` on `uAsset`'s legend. -/
theorem normalise_legend_u : normalise_legend uAsset.legend = .ok uNl := by
  simp only [uAsset, normalise_legend, to_rgba_red_one]
  rfl

/-- Witness for C1 on the concrete ragged asset `wAsset`. -/
theorem render_canvas_geometry_witness :
    wCanvas.length = max wAsset.grid.length (maxRowLen wAsset.grid) ∧
    (∀ row ∈ wCanvas, row.length = max wAsset.grid.length (maxRowLen wAsset.grid)) ∧
    (∀ i, (hi : i < wAsset.grid.length) →
      ∀ j, (hj : j < (wAsset.grid.get ⟨i, hi⟩).length) →
      ∀ p, wNl.lookup ((wAsset.grid.get ⟨i, hi⟩).get ⟨j, hj⟩) = some p →
      p ≠ TRANSPARENT_PIXEL →
      get2d wCanvas
        ((max wAsset.grid.length (maxRowLen wAsset.grid) -
            (wAsset.grid.get ⟨i, hi⟩).length) / 2 + j)
        ((max wAsset.grid.length (maxRowLen wAsset.grid) -
            wAsset.grid.length) / 2 + i) = p) :=
  render_canvas_geometry wAsset wCanvas wNl (by decide) normalise_legend_w render_w

/-- Witness for C2 on the concrete asset `uAsset`, whose grid contains the
unknown symbol `X`. -/
theorem unknown_symbol_error_witness :
    ∃ sym, (∃ row ∈ uAsset.grid, sym ∈ row) ∧ sym ∉ uAsset.legend.map Prod.fst ∧
      render_asset_grid uAsset =
        .error (.unknownSymbol sym uAsset.slug
          (List.insertionSort (fun a b => a ≤ b) (uAsset.legend.map Prod.fst))) :=
  unknown_symbol_error uAsset uNl normalise_legend_u (by decide)

/-- Witness for C9: the position `(1, 0)` of `wAsset`'s canvas is covered
only by the transparently-resolved `B`, and stays the sentinel. -/
theorem untouched_pixels_transparent_witness :
    get2d wCanvas 1 0 = TRANSPARENT_PIXEL :=
  untouched_pixels_transparent wAsset wCanvas wNl normalise_legend_w render_w 1 0
    (by decide)

/-! ## Exporter lemmas and claims C4, C7, C8 -/

/-- A `filterMap` with an everywhere-defined function is a `map`. -/
theorem filterMap_const_some {α β : Type _} (l : List α) (f : α → β) :
    l.filterMap (fun a => some (f a)) = l.map f := by
  induction l with
  | nil => rfl
  | cons a rest ih => simp [ih]

theorem artifactsOf_map_saved (l : List String) :
    artifactsOf (l.map ExportEvent.saved) = l.map fun p => (p, true) := by
  induction l with
  | nil => rfl
  | cons a rest ih =>
    simp only [artifactsOf, List.map_cons, List.filterMap_cons] at ih ⊢
    rw [ih]

theorem artifactsOf_map_dryRunLine (l : List String) :
    artifactsOf (l.map ExportEvent.dryRunLine) = l.map fun p => (p, false) := by
  induction l with
  | nil => rfl
  | cons a rest ih =>
    simp only [artifactsOf, List.map_cons, List.filterMap_cons] at ih ⊢
    rw [ih]

theorem reportedPaths_map_dryRunLine (l : List String) :
    reportedPaths (l.map ExportEvent.dryRunLine) = l := by
  induction l with
  | nil => rfl
  | cons a rest ih =>
    simp only [reportedPaths, List.map_cons, List.filterMap_cons] at ih ⊢
    rw [ih]

theorem savedPaths_map_saved (l : List String) :
    savedPaths (l.map ExportEvent.saved) = l := by
  induction l with
  | nil => rfl
  | cons a rest ih =>
    simp only [savedPaths, List.map_cons, List.filterMap_cons] at ih ⊢
    rw [ih]

theorem savedPaths_mkdir_cons (d : String) (events : List ExportEvent) :
    savedPaths (ExportEvent.mkdirParents d :: events) = savedPaths events := by
  simp only [savedPaths, List.filterMap_cons]

/-- Exporting fails exactly as rasterization does. -/
theorem export_asset_error (asset : AssetDefinition) (sizes : List Int)
    (output_dir : String) (include_base dry_run : Bool) (e : RenderError)
    (hr : render_asset_grid asset = .error e) :
    export_asset asset sizes output_dir include_base dry_run = .error e := by
  rw [export_asset, hr]

/-- When rasterization succeeds, the export trace is one event per target
path: a dry-run print line in dry-run mode, a saved file otherwise. -/
theorem export_asset_events (asset : AssetDefinition) (sizes : List Int)
    (output_dir : String) (include_base dry_run : Bool) (b : Canvas)
    (hr : render_asset_grid asset = .ok b) :
    export_asset asset sizes output_dir include_base dry_run =
      .ok ((exportPaths asset sizes output_dir include_base).map fun p =>
        if dry_run then ExportEvent.dryRunLine p else ExportEvent.saved p) := by
  rw [export_asset, hr, exportPaths]
  cases include_base <;> cases dry_run <;> simp

/-- The `(path, written)` summary of a successful export: one pair per
target path, written exactly when live. -/
theorem artifactsOf_export_asset (asset : AssetDefinition) (sizes : List Int)
    (output_dir : String) (include_base dry_run : Bool)
    (events : List ExportEvent)
    (h : export_asset asset sizes output_dir include_base dry_run = .ok events) :
    artifactsOf events =
      (exportPaths asset sizes output_dir include_base).map fun p => (p, !dry_run) := by
  cases hr : render_asset_grid asset with
  | error e =>
    rw [export_asset_error asset sizes output_dir include_base dry_run e hr] at h
    exact Except.noConfusion h
  | ok b =>
    rw [export_asset_events asset sizes output_dir include_base dry_run b hr] at h
    cases h
    cases dry_run
    · simp only [Bool.not_false, if_neg (by simp : ¬(false = true))]
      exact artifactsOf_map_saved _
    · simp only [Bool.not_true, if_pos rfl]
      exact artifactsOf_map_dryRunLine _

/-- C4: the export operation, with its per-artifact effects summarised as
`(path, written)` pairs, yields exactly one pair per target artifact (the
optional base plus one per deduplicated positive size), each marked written
precisely when the run is live. -/
theorem export_artifact_pairs (asset : AssetDefinition) (sizes : List Int)
    (output_dir : String) (include_base dry_run : Bool)
    (events : List ExportEvent)
    (h : export_asset asset sizes output_dir include_base dry_run = .ok events) :
    artifactsOf events =
      (exportPaths asset sizes output_dir include_base).map fun p => (p, !dry_run) :=
  artifactsOf_export_asset asset sizes output_dir include_base dry_run events h

/-- Witness for C4: exporting `wAsset` with sizes `[2, -1, 2]` and the base
included, live. -/
theorem export_w_eval : export_asset wAsset [2, -1, 2] "out" true false =
    .ok [ExportEvent.saved "out/w_base.png", ExportEvent.saved "out/w_2.png"] := by
  rw [export_asset, render_w]
  decide

/-- Witness for C4 at the concrete export of `wAsset`. -/
theorem export_artifact_pairs_witness :
    artifactsOf [ExportEvent.saved "out/w_base.png", ExportEvent.saved "out/w_2.png"] =
      (exportPaths wAsset [2, -1, 2] "out" true).map fun p => (p, !false) :=
  export_artifact_pairs wAsset [2, -1, 2] "out" true false _ export_w_eval

/-- C7: the sizes actually exported are the input sizes deduplicated, sorted
ascending, with non-positive values discarded; the artifacts are named
`{slug}_{size}.png` (and optionally `{slug}_base.png`) inside the output
directory. -/
theorem export_sizes_naming (asset : AssetDefinition) (sizes : List Int)
    (output_dir : String) (include_base dry_run : Bool)
    (events : List ExportEvent)
    (h : export_asset asset sizes output_dir include_base dry_run = .ok events) :
    (targetSizes sizes).Sorted (fun a b => a ≤ b) ∧
    (targetSizes sizes).Nodup ∧
    (∀ s, s ∈ targetSizes sizes ↔ s ∈ sizes ∧ 0 < s) ∧
    artifactsOf events =
      (if include_base
        then [(output_dir ++ "/" ++ asset.slug ++ "_base.png", !dry_run)] else []) ++
      (targetSizes sizes).map fun s =>
        (output_dir ++ "/" ++ asset.slug ++ "_" ++ toString s ++ ".png", !dry_run) := by
  refine ⟨List.sorted_insertionSort _ _, ?_, ?_, ?_⟩
  · exact ((List.perm_insertionSort _ _).nodup_iff).mpr (List.nodup_dedup _)
  · intro s
    rw [targetSizes, (List.perm_insertionSort _ _).mem_iff, List.mem_dedup,
      List.mem_filter]
    simp
  · rw [artifactsOf_export_asset asset sizes output_dir include_base dry_run events h,
      exportPaths]
    cases include_base <;>
      simp [pathJoin, String.append_assoc]

/-- Witness for C7 at the concrete export of `wAsset`. -/
theorem export_sizes_naming_witness :
    (targetSizes [2, -1, 2]).Sorted (fun a b => a ≤ b) ∧
    (targetSizes [2, -1, 2]).Nodup ∧
    (∀ s, s ∈ targetSizes [2, -1, 2] ↔ s ∈ ([2, -1, 2] : List Int) ∧ 0 < s) ∧
    artifactsOf [ExportEvent.saved "out/w_base.png", ExportEvent.saved "out/w_2.png"] =
      (if true
        then [("out" ++ "/" ++ wAsset.slug ++ "_base.png", !false)] else []) ++
      (targetSizes [2, -1, 2]).map fun s =>
        ("out" ++ "/" ++ wAsset.slug ++ "_" ++ toString s ++ ".png", !false) :=
  export_sizes_naming wAsset [2, -1, 2] "out" true false _ export_w_eval

/-- Unfolding `exportAll` on a successful head export. -/
theorem exportAll_cons_ok (sizes : List Int) (output_dir : String)
    (include_base dry_run : Bool) (asset : AssetDefinition)
    (rest : List AssetDefinition) (events more : List ExportEvent)
    (h1 : export_asset asset sizes output_dir include_base dry_run = .ok events)
    (h2 : exportAll sizes output_dir include_base dry_run rest = .ok more) :
    exportAll sizes output_dir include_base dry_run (asset :: rest) =
      .ok (events ++ more) := by
  rw [exportAll, h1, h2]

/-- Unfolding `exportAll` on a failing head export. -/
theorem exportAll_cons_error1 (sizes : List Int) (output_dir : String)
    (include_base dry_run : Bool) (asset : AssetDefinition)
    (rest : List AssetDefinition) (e : RenderError)
    (h1 : export_asset asset sizes output_dir include_base dry_run = .error e) :
    exportAll sizes output_dir include_base dry_run (asset :: rest) = .error e := by
  rw [exportAll, h1]

/-- Unfolding `exportAll` on a failing tail. -/
theorem exportAll_cons_error2 (sizes : List Int) (output_dir : String)
    (include_base dry_run : Bool) (asset : AssetDefinition)
    (rest : List AssetDefinition) (events : List ExportEvent) (e : RenderError)
    (h1 : export_asset asset sizes output_dir include_base dry_run = .ok events)
    (h2 : exportAll sizes output_dir include_base dry_run rest = .error e) :
    exportAll sizes output_dir include_base dry_run (asset :: rest) = .error e := by
  rw [exportAll, h1, h2]

/-- Unfolding `mainRun` on a successful export loop. -/
theorem mainRun_ok (assets : List AssetDefinition) (sizes : List Int)
    (output_dir : String) (include_base dry_run : Bool)
    (events : List ExportEvent)
    (h : exportAll sizes output_dir include_base dry_run assets = .ok events) :
    mainRun assets sizes output_dir include_base dry_run =
      .ok ((if dry_run then [] else [ExportEvent.mkdirParents output_dir]) ++ events) := by
  rw [mainRun, h]

/-- A successful dry export loop lists exactly the paths the live loop
saves. -/
theorem exportAll_dry_live (sizes : List Int) (output_dir : String)
    (include_base : Bool) :
    ∀ (assets : List AssetDefinition) (dev : List ExportEvent),
      exportAll sizes output_dir include_base true assets = .ok dev →
      ∃ ps : List String, dev = ps.map ExportEvent.dryRunLine ∧
        exportAll sizes output_dir include_base false assets =
          .ok (ps.map ExportEvent.saved) := by
  intro assets
  induction assets with
  | nil =>
    intro dev h
    rw [exportAll] at h
    cases h
    exact ⟨[], rfl, rfl⟩
  | cons asset rest ih =>
    intro dev h
    cases hr : render_asset_grid asset with
    | error e =>
      rw [exportAll_cons_error1 sizes output_dir include_base true asset rest e
        (export_asset_error asset sizes output_dir include_base true e hr)] at h
      exact Except.noConfusion h
    | ok b =>
      have hdryexp := export_asset_events asset sizes output_dir include_base true b hr
      have hliveexp := export_asset_events asset sizes output_dir include_base false b hr
      cases hmore : exportAll sizes output_dir include_base true rest with
      | error e =>
        rw [exportAll_cons_error2 sizes output_dir include_base true asset rest _ e
          hdryexp hmore] at h
        exact Except.noConfusion h
      | ok more =>
        rw [exportAll_cons_ok sizes output_dir include_base true asset rest _ more
          hdryexp hmore] at h
        cases h
        obtain ⟨ps', hdev', hlive'⟩ := ih more hmore
        refine ⟨exportPaths asset sizes output_dir include_base ++ ps', ?_, ?_⟩
        · rw [hdev', List.map_append]
          simp
        · rw [List.map_append]
          exact exportAll_cons_ok sizes output_dir include_base false asset rest _ _
            (by simpa using hliveexp) hlive'

/-- C8: a dry run performs no filesystem effect at all — every event it
emits is a `[dry-run]` stdout line — and the paths it reports are exactly
the paths a live run with the same arguments writes. -/
theorem dry_run_no_writes (assets : List AssetDefinition) (sizes : List Int)
    (output_dir : String) (include_base : Bool) (dev : List ExportEvent)
    (hdry : mainRun assets sizes output_dir include_base true = .ok dev) :
    ∃ lev, mainRun assets sizes output_dir include_base false = .ok lev ∧
      (∀ e ∈ dev, ∃ p, e = ExportEvent.dryRunLine p) ∧
      reportedPaths dev = savedPaths lev := by
  cases hall : exportAll sizes output_dir include_base true assets with
  | error e =>
    rw [mainRun, hall] at hdry
    exact Except.noConfusion hdry
  | ok events =>
    rw [mainRun_ok assets sizes output_dir include_base true events hall] at hdry
    cases hdry
    obtain ⟨ps, hdev, hlive⟩ := exportAll_dry_live sizes output_dir include_base
      assets events hall
    refine ⟨ExportEvent.mkdirParents output_dir :: ps.map ExportEvent.saved, ?_, ?_, ?_⟩
    · have := mainRun_ok assets sizes output_dir include_base false _ hlive
      simpa using this
    · intro e he
      rw [hdev] at he
      simp only [if_pos rfl, List.nil_append] at he
      obtain ⟨p, -, rfl⟩ := List.mem_map.mp he
      exact ⟨p, rfl⟩
    · rw [hdev]
      simp only [if_pos rfl, if_true, List.nil_append, reportedPaths_map_dryRunLine,
        savedPaths_mkdir_cons, savedPaths_map_saved]

/-- Evaluation of the dry-run driver on the one-asset catalog `[wAsset]`. -/
theorem mainRun_w_dry : mainRun [wAsset] [2] "out" false true =
    .ok [ExportEvent.dryRunLine "out/w_2.png"] := by
  rw [mainRun, exportAll, export_asset, render_w]
  decide

/-- Witness for C8 on the one-asset catalog `[wAsset]`. -/
theorem dry_run_no_writes_witness :
    ∃ lev, mainRun [wAsset] [2] "out" false false = .ok lev ∧
      (∀ e ∈ [ExportEvent.dryRunLine "out/w_2.png"],
        ∃ p, e = ExportEvent.dryRunLine p) ∧
      reportedPaths [ExportEvent.dryRunLine "out/w_2.png"] = savedPaths lev :=
  dry_run_no_writes [wAsset] [2] "out" false _ mainRun_w_dry

end RenderCrashZone
